import Mathlib

/-!
Verification development for the Network Utilization Dashboard repository.

The repository is a pandas/streamlit dashboard.  Its core logic is:
  * `read_network_csv` in `app.py` — schema check (with timestamp header
    aliasing), lenient timestamp parsing, numeric coercion, and backfill of
    `utilization_pct` from `throughput_mbps / capacity_mbps`;
  * the sidebar filter mask in `app.py` — date range plus categorical
    `isin` filters;
  * `compute_aggregations` in `src/analyze_network.py` — five derived
    tables (`site_hour`, `site_day`, `busy_hour`, `congested_cells`,
    `hour_of_day`).

Modelling choices (all from the source):
  * a table is a `List Row`; pandas row order is list order;
  * timestamps are integer nanoseconds since an epoch (`datetime64[ns]`
    is an `int64` nanosecond count); the derived `date` is the floor
    division by a day, the derived `hour` the hour-of-day component;
  * nullable numeric cells are `Option ℚ` (`none` = NaN); nullable
    categorical cells are `Option String`;
  * `pandas.sort_values` on several keys uses `numpy.lexsort`, a stable
    sort; we embed it as a structural insertion sort `isort`, which is
    extensionally the unique stable sort for a comparator, and prove the
    permutation / sortedness / stability lemmas we need about it;
  * `groupby` sorts the distinct keys ascending and drops rows whose key
    is null (`dropna=True` default); mean/max with `skipna`, and the
    explicit `np.percentile(s.dropna(), 95)` lambda, are embedded over
    the list of non-null values of the group.
-/

namespace NetDash

/-! ### A stable structural sort (model of `numpy.lexsort` / stable `sort_values`) -/

def insertS {α : Type} (le : α → α → Bool) (x : α) : List α → List α
  | [] => [x]
  | y :: ys => if le x y then x :: y :: ys else y :: insertS le x ys

def isort {α : Type} (le : α → α → Bool) : List α → List α
  | [] => []
  | x :: xs => insertS le x (isort le xs)

/-! ### Order helpers

`strLt` is code-point lexicographic order on strings, which is how Python
compares `str` values (and is definitionally the order `String.instLT`
places on `String.data`).  `optLE` orders nullable rationals with `none`
(NaN) below every number: in a descending `sort_values` with the default
`na_position='last'`, NaN entries land after all numbers, i.e. NaN acts
as the least element of the descending key. -/

def strLt (s t : String) : Bool := decide (s.data < t.data)

def optLE (a b : Option ℚ) : Bool :=
  match a, b with
  | none, _ => true
  | some _, none => false
  | some x, some y => decide (x ≤ y)

/-! ### The data model

One `Row` is one observation (one CSV line after parsing).  `timestamp`
is the `datetime64[ns]` value as integer nanoseconds since an epoch;
nullable numeric cells are `Option ℚ`, nullable categorical cells are
`Option String`. -/

def NS_PER_SEC : Int := 1000000000

def NS_PER_HOUR : Int := 3600000000000

def NS_PER_DAY : Int := 86400000000000

/-- Calendar-date component of a timestamp (`Series.dt.date`), as a day
number: floor division of the nanosecond count by one day. -/
def tsDate (t : Int) : Int := t.fdiv NS_PER_DAY

/-- Hour-of-day component of a timestamp (`Series.dt.hour`), in `0..23`. -/
def tsHour (t : Int) : Int := (t.emod NS_PER_DAY).fdiv NS_PER_HOUR

structure Row where
  timestamp : Int
  region : Option String
  city : Option String
  site_id : Option String
  cell_id : Option String
  tech : Option String
  capacity_mbps : Option ℚ
  throughput_mbps : Option ℚ
  utilization_pct : Option ℚ
  latency_ms : Option ℚ
  packet_loss_pct : Option ℚ
  users_active : Option ℚ
deriving DecidableEq

/-- A row with the given timestamp and every nullable field null.  Used to
build small concrete tables. -/
def blankRow (t : Int) : Row :=
  { timestamp := t, region := none, city := none, site_id := none,
    cell_id := none, tech := none, capacity_mbps := none,
    throughput_mbps := none, utilization_pct := none, latency_ms := none,
    packet_loss_pct := none, users_active := none }

/-! ### The filter layer (`app.py` lines 166-180)

```
start_date = pd.to_datetime(date_range[0])
end_date = pd.to_datetime(date_range[1]) + pd.Timedelta(days=1) - pd.Timedelta(seconds=1)
mask = (df["timestamp"] >= start_date) & (df["timestamp"] <= end_date)
if techs:   mask &= df["tech"].isin(techs)
if regions: mask &= df["region"].isin(regions)
if cities:  mask &= df["city"].isin(cities)
if sites:   mask &= df["site_id"].isin(sites)
df_f = df.loc[mask].copy()
```
The multiselect widgets return (possibly empty) lists of non-null
strings; an empty list is falsy, so that dimension is skipped.  A NaN
cell is not a member of a list of strings under `Series.isin`. -/

structure FilterSpec where
  startDay : Int
  endDay : Int
  techs : List String
  regions : List String
  cities : List String
  sites : List String

def isin (v : Option String) (xs : List String) : Bool :=
  match v with
  | none => false
  | some s => xs.contains s

def startBound (spec : FilterSpec) : Int := spec.startDay * NS_PER_DAY

def endBound (spec : FilterSpec) : Int :=
  (spec.endDay + 1) * NS_PER_DAY - NS_PER_SEC

def rowMask (spec : FilterSpec) (r : Row) : Bool :=
  decide (startBound spec ≤ r.timestamp) &&
  decide (r.timestamp ≤ endBound spec) &&
  (spec.techs.isEmpty || isin r.tech spec.techs) &&
  (spec.regions.isEmpty || isin r.region spec.regions) &&
  (spec.cities.isEmpty || isin r.city spec.cities) &&
  (spec.sites.isEmpty || isin r.site_id spec.sites)

def applyFilters (df : List Row) (spec : FilterSpec) : List Row :=
  df.filter (rowMask spec)

/-- The predicate an active categorical dimension imposes, as a `Prop`:
either the dimension is unset (empty selection) or the row's value is a
member of the selection. -/
def DimPass (xs : List String) (v : Option String) : Prop :=
  xs = [] ∨ ∃ s, v = some s ∧ s ∈ xs

/-- The inclusive date-range predicate, as a `Prop`. -/
def InRange (spec : FilterSpec) (r : Row) : Prop :=
  startBound spec ≤ r.timestamp ∧ r.timestamp ≤ endBound spec

/-- A filter specification selecting the single calendar day `0` with every
categorical dimension unset. -/
def specDay0 : FilterSpec := ⟨0, 0, [], [], [], []⟩

/-! ### The record validator / normalizer (`read_network_csv`, `app.py` lines 45-77)

A raw table is a header list plus rows.  A raw row carries the outcome of
the per-cell parses the loader performs: `pd.to_datetime(..., errors="coerce")`
for the timestamp (`none` = unparseable) and `pd.to_numeric(..., errors="coerce")`
for the six numeric cells. -/

structure RawRow where
  timestamp : Option Int
  region : Option String
  city : Option String
  site_id : Option String
  cell_id : Option String
  tech : Option String
  capacity_mbps : Option ℚ
  throughput_mbps : Option ℚ
  utilization_pct : Option ℚ
  latency_ms : Option ℚ
  packet_loss_pct : Option ℚ
  users_active : Option ℚ
deriving DecidableEq

structure RawTable where
  cols : List String
  rows : List RawRow

def blankRaw : RawRow :=
  { timestamp := none, region := none, city := none, site_id := none,
    cell_id := none, tech := none, capacity_mbps := none,
    throughput_mbps := none, utilization_pct := none, latency_ms := none,
    packet_loss_pct := none, users_active := none }

/-- `REQUIRED_COLS` from `app.py`, in the order the set literal is written. -/
def REQUIRED_COLS : List String :=
  ["timestamp", "region", "city", "site_id", "cell_id", "tech",
   "capacity_mbps", "throughput_mbps", "utilization_pct",
   "latency_ms", "packet_loss_pct", "users_active"]

def strLe (a b : String) : Bool := !(strLt b a)

/-- `sorted(list(required_cols))`. -/
def requiredSorted : List String := isort strLe REQUIRED_COLS

/-- The timestamp alias candidates of `_apply_aliases`, in source order. -/
def timestampAliases : List String :=
  ["timestamp", "time", "datetime", "event_time", "date_time"]

/-- `_apply_aliases`: when no `timestamp` column exists, the first alias
present in the header (in candidate order) is renamed to `timestamp`. -/
def applyAliases (cols : List String) : List String :=
  if cols.contains "timestamp" then cols
  else
    match timestampAliases.find? (fun a => cols.contains a) with
    | some a => cols.map (fun c => if c = a then "timestamp" else c)
    | none => cols

/-- `sorted(list(required_cols - set(df.columns)))`: filtering the sorted
required list by absence gives the same sorted, duplicate-free list as
sorting the set difference. -/
def missingCols (cols : List String) : List String :=
  requiredSorted.filter (fun c => !(cols.contains c))

/-- An IEEE-754 value as produced by the series expression
`(throughput / capacity) * 100.0` under `np.errstate(divide="ignore",
invalid="ignore")`: a finite number (idealized as an exact rational), a
signed infinity from dividing a nonzero number by zero, or NaN. -/
inductive FVal where
  | num (q : ℚ)
  | posInf
  | negInf
  | nan

/-- Float division of two nullable cells: NaN operands and `0/0` give NaN,
`t/0` with `t ≠ 0` gives a signed infinity, otherwise the exact ratio. -/
def fdivF (a b : Option ℚ) : FVal :=
  match a, b with
  | some x, some y =>
    if y = 0 then
      if 0 < x then .posInf else if x < 0 then .negInf else .nan
    else .num (x / y)
  | _, _ => .nan

/-- Multiplication by the positive constant `100.0`. -/
def fscale100 : FVal → FVal
  | .num q => .num (q * 100)
  | v => v

/-- `Series.clip(lower=0, upper=100)`: clamps finite values and infinities
into `[0, 100]`; NaN stays NaN (and so the assigned cell stays null). -/
def fclip0100 : FVal → Option ℚ
  | .num q => some (max 0 (min 100 q))
  | .posInf => some 100
  | .negInf => some 0
  | .nan => none

def calcUtil (thr cap : Option ℚ) : Option ℚ :=
  fclip0100 (fscale100 (fdivF thr cap))

/-- Lines 70-76 of `app.py`, per row: `utilization_pct` is backfilled from
`((throughput_mbps / capacity_mbps) * 100.0).clip(0, 100)` exactly where
it is null. -/
def normalizeRow (r : RawRow) : RawRow :=
  if r.utilization_pct.isSome then r
  else { r with utilization_pct := calcUtil r.throughput_mbps r.capacity_mbps }

/-- The loader's failure modes: the two `ValueError`s of
`read_network_csv`, named after the spec's error taxonomy. -/
inductive LoadError where
  | schemaError (missing : List String) (required : List String)
  | timestampError
deriving DecidableEq

/-- `read_network_csv`: alias the header, fail on missing required
columns, fail when no row has a parseable timestamp (`isna().all()`, which
is also true of an empty table), otherwise coerce numerics and backfill
utilization. -/
def read_network_csv (t : RawTable) : Except LoadError (List RawRow) :=
  let cols := applyAliases t.cols
  let missing := missingCols cols
  if missing.isEmpty then
    if t.rows.all (fun r => r.timestamp.isNone) then
      .error .timestampError
    else
      .ok (t.rows.map normalizeRow)
  else
    .error (.schemaError missing requiredSorted)

/-! ### Two-key lexicographic comparators

`sort_values` on two keys and `groupby` key ordering compare a primary key
and, on primary ties, a secondary key.  `lexLe f g plt sle` is that
comparator: `plt` is the strict order of the primary key, `sle` the
non-strict order of the secondary key. -/

def lexLe {α β γ : Type} [DecidableEq β] (f : α → β) (g : α → γ)
    (plt : β → β → Bool) (sle : γ → γ → Bool) (a b : α) : Bool :=
  if f a = f b then sle (g a) (g b) else plt (f a) (f b)

/-- Strict "greater" on nullable rationals with NaN below every number:
the primary key of a descending two-key sort. -/
def optGT (a b : Option ℚ) : Bool := !(optLE a b)

/-! ### The aggregation engine (`src/analyze_network.py`)

`compute_aggregations` derives five tables from the filtered frame.  The
embedding below follows the source line by line:

  * `groupby(keys, as_index=False)` sorts the distinct non-null keys
    ascending (rows with a null key are dropped, `dropna=True` default)
    and aggregates each group over the rows in their original order —
    `groupByOpt`;
  * `mean` / `max` aggregate with `skipna=True`: nulls are excluded and
    an empty or all-null group yields NaN — `meanOpt` / `maxOpt` over the
    group's non-null values;
  * the `p95_util` lambda is `np.percentile(s.dropna(), 95)` guarded by
    `s.notna().any()` — `percentile95`;
  * `sort_values` on two keys is a stable lexicographic sort — `isort`
    with a `lexLe` comparator. -/

def groupByOpt {κ : Type} [DecidableEq κ] (le : κ → κ → Bool)
    (key : Row → Option κ) (df : List Row) : List (κ × List Row) :=
  (isort le (df.filterMap key).dedup).map
    (fun k => (k, df.filter (fun r => key r = some k)))

/-- Grouping key of `groupby(["site_id","hour"])`: null when `site_id` is
null (the row is dropped from the group table). -/
def shKey (r : Row) : Option (String × Int) :=
  r.site_id.map (fun s => (s, tsHour r.timestamp))

/-- Grouping key of `groupby(["site_id","date"])`. -/
def sdKey (r : Row) : Option (String × Int) :=
  r.site_id.map (fun s => (s, tsDate r.timestamp))

/-- Ascending order on the two-part group keys. -/
def keyLe : String × Int → String × Int → Bool :=
  lexLe Prod.fst Prod.snd strLt (fun x y => decide (x ≤ y))

/-- Non-null values of a numeric column over a group (`dropna`/`skipna`). -/
def colVals (f : Row → Option ℚ) (rs : List Row) : List ℚ := rs.filterMap f

/-- `Series.mean` over a group: null for an empty (all-null) input. -/
def meanOpt (xs : List ℚ) : Option ℚ :=
  if xs = [] then none else some (xs.sum / (xs.length : ℚ))

/-- `Series.max` over a group: null for an empty (all-null) input. -/
def maxOpt (xs : List ℚ) : Option ℚ :=
  match xs with
  | [] => none
  | x :: t => some (t.foldl max x)

def rleQ (a b : ℚ) : Bool := decide (a ≤ b)

/-- `np.percentile(xs, 95)` with the default linear interpolation on the
sorted values, guarded by the source's `notna().any()` check: `none` when
there are no (non-null) values.  The rank is `0.95 * (n - 1)`; the result
interpolates between the values at the floor of the rank and the next
index (clamped to the last index). -/
def percentile95 (xs : List ℚ) : Option ℚ :=
  match isort rleQ xs with
  | [] => none
  | v =>
    let n := v.length
    let rank : ℚ := (95 / 100) * ((n : ℚ) - 1)
    let i : ℕ := (Rat.floor rank).toNat
    let lo := v.getD i 0
    let hi := v.getD (min (i + 1) (n - 1)) 0
    some (lo + (rank - (i : ℚ)) * (hi - lo))

structure SiteHourRow where
  site_id : String
  hour : Int
  avg_util : Option ℚ
  p95_util : Option ℚ
  avg_latency : Option ℚ
  users : Option ℚ
deriving DecidableEq

/-- The `site_hour` table. -/
def site_hour (df : List Row) : List SiteHourRow :=
  (groupByOpt keyLe shKey df).map fun kg =>
    { site_id := kg.1.1, hour := kg.1.2,
      avg_util := meanOpt (colVals (fun r => r.utilization_pct) kg.2),
      p95_util := percentile95 (colVals (fun r => r.utilization_pct) kg.2),
      avg_latency := meanOpt (colVals (fun r => r.latency_ms) kg.2),
      users := meanOpt (colVals (fun r => r.users_active) kg.2) }

structure SiteDayRow where
  site_id : String
  date : Int
  avg_util : Option ℚ
  peak_util : Option ℚ
  avg_latency : Option ℚ
  users : Option ℚ
deriving DecidableEq

/-- The `site_day` table. -/
def site_day (df : List Row) : List SiteDayRow :=
  (groupByOpt keyLe sdKey df).map fun kg =>
    { site_id := kg.1.1, date := kg.1.2,
      avg_util := meanOpt (colVals (fun r => r.utilization_pct) kg.2),
      peak_util := maxOpt (colVals (fun r => r.utilization_pct) kg.2),
      avg_latency := meanOpt (colVals (fun r => r.latency_ms) kg.2),
      users := meanOpt (colVals (fun r => r.users_active) kg.2) }

structure BusyHourRow where
  site_id : String
  hour : Int
  hour_avg_util : Option ℚ
deriving DecidableEq

/-- `tmp`: per (site, hour) mean utilization, grouped ascending. -/
def hourMeanRows (df : List Row) : List BusyHourRow :=
  (groupByOpt keyLe shKey df).map fun kg =>
    { site_id := kg.1.1, hour := kg.1.2,
      hour_avg_util := meanOpt (colVals (fun r => r.utilization_pct) kg.2) }

/-- `sort_values(["site_id","hour_avg_util"], ascending=[True, False])`:
site ascending; on site ties mean descending with NaN last. -/
def busyLe : BusyHourRow → BusyHourRow → Bool :=
  lexLe (fun b => b.site_id) (fun b => b.hour_avg_util) strLt
    (fun m n => optLE n m)

/-- `groupby("site_id").head(1)` on an already-ordered frame: keep the
first row of each site in list order. -/
def firstBySite : List BusyHourRow → List String → List BusyHourRow
  | [], _ => []
  | b :: bs, seen =>
    if b.site_id ∈ seen then firstBySite bs seen
    else b :: firstBySite bs (b.site_id :: seen)

/-- The `busy_hour` table. -/
def busy_hour (df : List Row) : List BusyHourRow :=
  firstBySite (isort busyLe (hourMeanRows df)) []

structure CongRow where
  timestamp : Int
  region : Option String
  city : Option String
  site_id : Option String
  cell_id : Option String
  tech : Option String
  utilization_pct : Option ℚ
  latency_ms : Option ℚ
deriving DecidableEq

/-- `df["utilization_pct"] >= 80`: false on NaN. -/
def utilGe80 (r : Row) : Bool :=
  match r.utilization_pct with
  | none => false
  | some q => decide (80 ≤ q)

/-- `sort_values(["utilization_pct","latency_ms"], ascending=[False, False])`:
descending on both keys, NaN last per key. -/
def congLe : Row → Row → Bool :=
  lexLe (fun r => r.utilization_pct) (fun r => r.latency_ms) optGT
    (fun m n => optLE n m)

/-- The projection to the eight `congested_cells` columns. -/
def projCong (r : Row) : CongRow :=
  { timestamp := r.timestamp, region := r.region, city := r.city,
    site_id := r.site_id, cell_id := r.cell_id, tech := r.tech,
    utilization_pct := r.utilization_pct, latency_ms := r.latency_ms }

/-- The `congested_cells` table: filter at the fixed threshold 80, stable
descending sort, project. -/
def congested_cells (df : List Row) : List CongRow :=
  (isort congLe (df.filter utilGe80)).map projCong

/-- Ascending order on the `(hour, tech)` keys of `hour_of_day`. -/
def htKey (r : Row) : Option (Int × String) :=
  r.tech.map (fun tc => (tsHour r.timestamp, tc))

def htLe : Int × String → Int × String → Bool :=
  lexLe Prod.fst Prod.snd (fun x y => decide (x < y)) strLe

structure HourTechRow where
  hour : Int
  tech : String
  utilization_pct : Option ℚ
deriving DecidableEq

/-- The `hour_of_day` table. -/
def hour_of_day (df : List Row) : List HourTechRow :=
  (groupByOpt htLe htKey df).map fun kg =>
    { hour := kg.1.1, tech := kg.1.2,
      utilization_pct := meanOpt (colVals (fun r => r.utilization_pct) kg.2) }

/-- The five tables of `compute_aggregations`, as one bundle mirroring the
returned dict. -/
structure AggTables where
  site_hour : List SiteHourRow
  site_day : List SiteDayRow
  busy_hour : List BusyHourRow
  congested_cells : List CongRow
  hour_of_day : List HourTechRow

def compute_aggregations (df : List Row) : AggTables :=
  { site_hour := site_hour df, site_day := site_day df,
    busy_hour := busy_hour df, congested_cells := congested_cells df,
    hour_of_day := hour_of_day df }

/-- The mean of the non-null `utilization_pct` values of the `(s, h)`
site-hour group, spelled directly over the input rows (what the spec calls
`avg(utilization_pct)` of the group). -/
def siteHourMean (df : List Row) (s : String) (h : Int) : Option ℚ :=
  meanOpt ((df.filter (fun r =>
    decide (r.site_id = some s) && decide (tsHour r.timestamp = h))).filterMap
    (fun r => r.utilization_pct))

/-- The `tmp` row built for group key `k`. -/
def bhBuild (df : List Row) (k : String × Int) : BusyHourRow :=
  { site_id := k.1, hour := k.2,
    hour_avg_util := meanOpt (colVals (fun r => r.utilization_pct)
      (df.filter (fun r => decide (shKey r = some k)))) }

/-- Strict ascending order of the `(site_id, hour)` keys of two `tmp`
rows: the order `tmp` is produced in by `groupby`. -/
def bhKeyLT (a b : BusyHourRow) : Prop :=
  strLt a.site_id b.site_id = true ∨ (a.site_id = b.site_id ∧ a.hour < b.hour)

theorem perm_insertS {α : Type} (le : α → α → Bool) (x : α) (l : List α) :
    (insertS le x l).Perm (x :: l) := by
  induction l with
  | nil => simp [insertS]
  | cons y ys ih =>
    by_cases h : le x y = true
    · simp [insertS, h]
    · simp only [insertS, h, if_neg, Bool.not_eq_true, ite_false]
      exact ((ih.cons y).trans (List.Perm.swap x y ys))

theorem isort_perm {α : Type} (le : α → α → Bool) (l : List α) :
    (isort le l).Perm l := by
  induction l with
  | nil => simp [isort]
  | cons x xs ih => exact (perm_insertS le x (isort le xs)).trans (ih.cons x)

theorem mem_isort {α : Type} {le : α → α → Bool} {l : List α} {a : α} :
    a ∈ isort le l ↔ a ∈ l :=
  (isort_perm le l).mem_iff

theorem pairwise_insertS {α : Type} {le : α → α → Bool}
    (htot : ∀ a b, le a b = true ∨ le b a = true)
    (htrans : ∀ a b c, le a b = true → le b c = true → le a c = true)
    (x : α) {l : List α} (hl : l.Pairwise (fun a b => le a b = true)) :
    (insertS le x l).Pairwise (fun a b => le a b = true) := by
  induction l with
  | nil => simp [insertS]
  | cons y ys ih =>
    rcases List.pairwise_cons.mp hl with ⟨hy, hys⟩
    by_cases h : le x y = true
    · simp only [insertS, h, ite_true]
      refine List.pairwise_cons.mpr ⟨?_, hl⟩
      intro b hb
      rcases List.mem_cons.mp hb with rfl | hb
      · exact h
      · exact htrans x y b h (hy b hb)
    · simp only [insertS, h, ite_false]
      refine List.pairwise_cons.mpr ⟨?_, ih hys⟩
      intro b hb
      rcases List.mem_cons.mp ((perm_insertS le x ys).mem_iff.mp hb) with rfl | hb
      · rcases htot y b with hyb | hby
        · exact hyb
        · exact absurd hby h
      · exact hy b hb

theorem isort_sorted {α : Type} {le : α → α → Bool}
    (htot : ∀ a b, le a b = true ∨ le b a = true)
    (htrans : ∀ a b c, le a b = true → le b c = true → le a c = true)
    (l : List α) : (isort le l).Pairwise (fun a b => le a b = true) := by
  induction l with
  | nil => simp [isort]
  | cons x xs ih => exact pairwise_insertS htot htrans x ih

theorem self_sublist_insertS {α : Type} (le : α → α → Bool) (x : α) (l : List α) :
    l.Sublist (insertS le x l) := by
  induction l with
  | nil => simp [insertS]
  | cons y ys ih =>
    by_cases h : le x y = true
    · simp only [insertS, h, ite_true]
      exact List.sublist_cons_self x (y :: ys)
    · simp only [insertS, h, ite_false]
      exact ih.cons₂ y

theorem sublist_insertS_of_mem {α : Type} {le : α → α → Bool} {x y : α}
    (hxy : le x y = true) {l : List α} (hy : y ∈ l) :
    [x, y].Sublist (insertS le x l) := by
  induction l with
  | nil => cases hy
  | cons b bs ih =>
    by_cases h : le x b = true
    · simp only [insertS, h, ite_true]
      exact (List.singleton_sublist.mpr hy).cons₂ x
    · simp only [insertS, h, ite_false]
      rcases List.mem_cons.mp hy with rfl | hy
      · exact absurd hxy h
      · exact (ih hy).cons b

/-- Stability of `isort`: a pair that occurs in order in the input and is
ordered by the comparator occurs in the same order in the output.  (For a
pair of comparator-equivalent elements this says a stable sort keeps the
input order, which is what `numpy.lexsort` guarantees.) -/
theorem isort_stable {α : Type} {le : α → α → Bool} {x y : α}
    (hxy : le x y = true) {l : List α} (h : [x, y].Sublist l) :
    [x, y].Sublist (isort le l) := by
  induction l with
  | nil => cases h
  | cons a as ih =>
    rcases List.sublist_cons_iff.mp h with h' | ⟨l₃, hl₃, hsub⟩
    · exact (ih h').trans (self_sublist_insertS le a (isort le as))
    · obtain ⟨rfl, rfl⟩ : x = a ∧ l₃ = [y] := by
        cases hl₃; exact ⟨rfl, rfl⟩
      have hy : y ∈ isort le as :=
        mem_isort.mpr (List.singleton_sublist.mp hsub)
      exact sublist_insertS_of_mem hxy hy

theorem strLt_iff {s t : String} : strLt s t = true ↔ s < t := by
  simp [strLt]

theorem strLt_trans {a b c : String} (hab : strLt a b = true)
    (hbc : strLt b c = true) : strLt a c = true :=
  strLt_iff.mpr (lt_trans (strLt_iff.mp hab) (strLt_iff.mp hbc))

theorem strLt_antisymm {a b : String} (hab : strLt a b = false)
    (hba : strLt b a = false) : a = b := by
  have h1 : ¬ a < b := fun h => by simp [strLt_iff.mpr h] at hab
  have h2 : ¬ b < a := fun h => by simp [strLt_iff.mpr h] at hba
  exact le_antisymm (not_lt.mp h2) (not_lt.mp h1)

theorem optLE_refl (a : Option ℚ) : optLE a a = true := by
  cases a <;> simp [optLE]

theorem optLE_total (a b : Option ℚ) : optLE a b = true ∨ optLE b a = true := by
  cases a with
  | none => exact Or.inl rfl
  | some x =>
    cases b with
    | none => exact Or.inr rfl
    | some y => simpa [optLE] using le_total x y

theorem optLE_trans {a b c : Option ℚ} (hab : optLE a b = true)
    (hbc : optLE b c = true) : optLE a c = true := by
  cases a with
  | none => rfl
  | some x =>
    cases b with
    | none => simp [optLE] at hab
    | some y =>
      cases c with
      | none => simp [optLE] at hbc
      | some z =>
        simp only [optLE, decide_eq_true_eq] at *
        exact le_trans hab hbc

theorem optLE_antisymm {a b : Option ℚ} (hab : optLE a b = true)
    (hba : optLE b a = true) : a = b := by
  cases a with
  | none => cases b with
    | none => rfl
    | some y => simp [optLE] at hba
  | some x =>
    cases b with
    | none => simp [optLE] at hab
    | some y =>
      simp only [optLE, decide_eq_true_eq] at *
      exact congrArg some (le_antisymm hab hba)

theorem dim_elim {xs : List String} {v : Option String} :
    (xs.isEmpty || isin v xs) = true ↔ DimPass xs v := by
  cases v with
  | none =>
    simp [isin, DimPass, List.isEmpty_iff]
  | some s =>
    simp only [isin, DimPass, Bool.or_eq_true, List.isEmpty_iff]
    constructor
    · rintro (rfl | h)
      · exact Or.inl rfl
      · exact Or.inr ⟨s, rfl, List.mem_of_elem_eq_true h⟩
    · rintro (rfl | ⟨t, ht, hmem⟩)
      · exact Or.inl rfl
      · cases ht; exact Or.inr (List.elem_eq_true_of_mem hmem)

theorem mem_applyFilters {df : List Row} {spec : FilterSpec} {r : Row} :
    r ∈ applyFilters df spec ↔
      r ∈ df ∧ InRange spec r ∧
      DimPass spec.techs r.tech ∧ DimPass spec.regions r.region ∧
      DimPass spec.cities r.city ∧ DimPass spec.sites r.site_id := by
  rw [applyFilters, List.mem_filter]
  constructor
  · rintro ⟨hmem, hmask⟩
    simp only [rowMask, Bool.and_eq_true, decide_eq_true_eq] at hmask
    obtain ⟨⟨⟨⟨⟨h1, h2⟩, h3⟩, h4⟩, h5⟩, h6⟩ := hmask
    exact ⟨hmem, ⟨h1, h2⟩, dim_elim.mp h3, dim_elim.mp h4,
      dim_elim.mp h5, dim_elim.mp h6⟩
  · rintro ⟨hmem, ⟨h1, h2⟩, h3, h4, h5, h6⟩
    refine ⟨hmem, ?_⟩
    simp only [rowMask, Bool.and_eq_true, decide_eq_true_eq]
    exact ⟨⟨⟨⟨⟨h1, h2⟩, dim_elim.mpr h3⟩, dim_elim.mpr h4⟩,
      dim_elim.mpr h5⟩, dim_elim.mpr h6⟩

theorem dimPass_none {xs : List String} (h : DimPass xs none) : xs = [] := by
  rcases h with h | ⟨s, hs, _⟩
  · exact h
  · cases hs

/-- Claim C5, counterexample.  The timestamp `86399500000000` ns is
`23:59:59.5` of day `0`, so the row lies inside the last calendar day of
the range `(0, 0)` (`tsDate` is the end day), yet the filter excludes it:
the end boundary is `start of next day minus one second`, which cuts off
the final fractional second of the day.  The claim says every row
timestamped anywhere within the last calendar day is kept. -/
theorem C5_counterexample :
    tsDate (blankRow 86399500000000).timestamp = specDay0.endDay ∧
    applyFilters [blankRow 86399500000000] specDay0 = [] := by
  decide

/-- Claim C5 (amended): the filter returns exactly the rows satisfying the
conjunction of all active predicates; the date range keeps rows with
`start-of-start-day ≤ t ≤ start-of-day-after-end − 1 second` (whole-second
end boundary `23:59:59`, excluding the final fractional second of the last
day); an unset categorical dimension passes all rows and a set one keeps
exactly the rows whose value is a member of the selection; the result is a
plain sublist, empty rather than an error when nothing matches. -/
theorem C5_filter_exact (df : List Row) (spec : FilterSpec) (r : Row) :
    r ∈ applyFilters df spec ↔
      r ∈ df ∧
      spec.startDay * NS_PER_DAY ≤ r.timestamp ∧
      r.timestamp ≤ (spec.endDay + 1) * NS_PER_DAY - NS_PER_SEC ∧
      DimPass spec.techs r.tech ∧ DimPass spec.regions r.region ∧
      DimPass spec.cities r.city ∧ DimPass spec.sites r.site_id := by
  simpa [InRange, startBound, endBound, and_assoc] using
    (@mem_applyFilters df spec r)

theorem C5_filter_exact_witness :
    blankRow 5000000000 ∈ applyFilters [blankRow 5000000000] specDay0 :=
  (C5_filter_exact _ _ _).mpr
    ⟨List.mem_singleton.mpr rfl, by decide, by decide,
      Or.inl rfl, Or.inl rfl, Or.inl rfl, Or.inl rfl⟩

/-- Claim C9: filtering is idempotent — applying the same filter
specification to an already-filtered table returns an identical result,
because the filter is a pure row-subset operation. -/
theorem C9_filter_idempotent (df : List Row) (spec : FilterSpec) :
    applyFilters (applyFilters df spec) spec = applyFilters df spec := by
  simp only [applyFilters, List.filter_filter]
  exact List.filter_congr (fun x _ => by cases rowMask spec x <;> simp)

/-- Claim C10: for each categorical dimension, a row whose value in that
dimension is null is excluded whenever a non-empty selection is supplied
for the dimension, although such rows pass when the dimension is unset
(the final clause instantiated with an empty selection, for which
`DimPass` holds vacuously). -/
theorem C10_null_dims (df : List Row) (spec : FilterSpec) (r : Row) :
    (r.tech = none → spec.techs ≠ [] → r ∉ applyFilters df spec) ∧
    (r.region = none → spec.regions ≠ [] → r ∉ applyFilters df spec) ∧
    (r.city = none → spec.cities ≠ [] → r ∉ applyFilters df spec) ∧
    (r.site_id = none → spec.sites ≠ [] → r ∉ applyFilters df spec) ∧
    (r ∈ df → InRange spec r →
      DimPass spec.techs r.tech → DimPass spec.regions r.region →
      DimPass spec.cities r.city → DimPass spec.sites r.site_id →
      r ∈ applyFilters df spec) := by
  refine ⟨?_, ?_, ?_, ?_, ?_⟩
  · intro hnull hne hmem
    rcases mem_applyFilters.mp hmem with ⟨-, -, h, -, -, -⟩
    rw [hnull] at h
    exact hne (dimPass_none h)
  · intro hnull hne hmem
    rcases mem_applyFilters.mp hmem with ⟨-, -, -, h, -, -⟩
    rw [hnull] at h
    exact hne (dimPass_none h)
  · intro hnull hne hmem
    rcases mem_applyFilters.mp hmem with ⟨-, -, -, -, h, -⟩
    rw [hnull] at h
    exact hne (dimPass_none h)
  · intro hnull hne hmem
    rcases mem_applyFilters.mp hmem with ⟨-, -, -, -, -, h⟩
    rw [hnull] at h
    exact hne (dimPass_none h)
  · intro hmem hr h1 h2 h3 h4
    exact mem_applyFilters.mpr ⟨hmem, hr, h1, h2, h3, h4⟩

theorem C10_null_dims_witness :
    blankRow 0 ∉ applyFilters [blankRow 0] (FilterSpec.mk 0 0 ["LTE"] [] [] []) :=
  (C10_null_dims _ _ _).1 rfl (by decide)

theorem contains_false_iff {cols : List String} {c : String} :
    (!cols.contains c) = true ↔ c ∉ cols := by
  simp [List.contains, List.elem_iff]

theorem mem_missingCols {cols : List String} {c : String} :
    c ∈ missingCols cols ↔ c ∈ REQUIRED_COLS ∧ c ∉ cols := by
  rw [missingCols, List.mem_filter, contains_false_iff]
  constructor
  · rintro ⟨hmem, habs⟩
    exact ⟨(isort_perm strLe REQUIRED_COLS).subset hmem, habs⟩
  · rintro ⟨hmem, habs⟩
    exact ⟨(isort_perm strLe REQUIRED_COLS).mem_iff.mpr hmem, habs⟩

theorem missingCols_eq_nil_iff {cols : List String} :
    missingCols cols = [] ↔ ∀ c ∈ REQUIRED_COLS, c ∈ cols := by
  rw [missingCols, List.filter_eq_nil_iff]
  constructor
  · intro h c hc
    by_contra habs
    exact h c ((isort_perm strLe REQUIRED_COLS).mem_iff.mpr hc)
      (contains_false_iff.mpr habs)
  · intro h c hc hfalse
    exact contains_false_iff.mp hfalse
      (h c ((isort_perm strLe REQUIRED_COLS).subset hc))

theorem requiredSorted_strictSorted :
    requiredSorted.Pairwise (fun a b => strLt a b = true) := by
  decide

/-- Claim C6: the loader fails with a `SchemaError` exactly when at least
one required field is absent after timestamp-alias resolution, and the
error then lists the absent required fields in sorted (code-point
lexicographic, strictly increasing) order together with the full sorted
required set. -/
theorem C6_schema_check (t : RawTable) :
    ((∃ m req, read_network_csv t = .error (.schemaError m req)) ↔
      ∃ c ∈ REQUIRED_COLS, c ∉ applyAliases t.cols) ∧
    (∀ m req, read_network_csv t = .error (.schemaError m req) →
      m.Pairwise (fun a b => strLt a b = true) ∧
      (∀ c, c ∈ m ↔ c ∈ REQUIRED_COLS ∧ c ∉ applyAliases t.cols) ∧
      req = requiredSorted ∧
      req.Pairwise (fun a b => strLt a b = true)) := by
  constructor
  · rw [read_network_csv]
    by_cases hemp : (missingCols (applyAliases t.cols)).isEmpty = true
    · simp only [hemp, if_true]
      constructor
      · rintro ⟨m, req, h⟩
        by_cases hts : t.rows.all (fun r => r.timestamp.isNone) = true <;>
          simp [hts] at h
      · rintro ⟨c, hc, habs⟩
        have := missingCols_eq_nil_iff.mp (List.isEmpty_iff.mp hemp) c hc
        exact absurd this habs
    · simp only [hemp, if_false]
      constructor
      · rintro -
        have hne : missingCols (applyAliases t.cols) ≠ [] := by
          intro h; exact hemp (List.isEmpty_iff.mpr h)
        rcases List.exists_mem_of_ne_nil _ hne with ⟨c, hc⟩
        rcases mem_missingCols.mp hc with ⟨h1, h2⟩
        exact ⟨c, h1, h2⟩
      · rintro -
        exact ⟨_, _, rfl⟩
  · intro m req h
    rw [read_network_csv] at h
    by_cases hemp : (missingCols (applyAliases t.cols)).isEmpty = true
    · by_cases hts : t.rows.all (fun r => r.timestamp.isNone) = true <;>
        simp [hemp, hts] at h
    · simp only [hemp, if_false, Except.error.injEq, LoadError.schemaError.injEq] at h
      obtain ⟨rfl, rfl⟩ := h
      refine ⟨requiredSorted_strictSorted.filter _, ?_, rfl,
        requiredSorted_strictSorted⟩
      intro c
      exact mem_missingCols

theorem C6_schema_check_witness :
    (∃ m req,
      read_network_csv
        ⟨["timestamp", "region", "city", "site_id", "tech",
          "capacity_mbps", "throughput_mbps", "utilization_pct",
          "latency_ms", "packet_loss_pct", "users_active"], []⟩ =
        .error (.schemaError m req)) ∧
    read_network_csv
        ⟨["timestamp", "region", "city", "site_id", "tech",
          "capacity_mbps", "throughput_mbps", "utilization_pct",
          "latency_ms", "packet_loss_pct", "users_active"], []⟩ =
      .error (.schemaError ["cell_id"] requiredSorted) :=
  ⟨(C6_schema_check _).1.mpr ⟨"cell_id", by decide, by decide⟩, rfl⟩

/-- Claim C7: once the schema check passes, the loader fails with a
`TimestampError` exactly when zero rows have a parseable timestamp; when
at least one row parses, no error is raised, and unparseable timestamps
remain null in the returned rows (row-for-row, the normalizer does not
touch the timestamp). -/
theorem C7_timestamp_check (t : RawTable)
    (hschema : ∀ c ∈ REQUIRED_COLS, c ∈ applyAliases t.cols) :
    (read_network_csv t = .error .timestampError ↔
      ∀ r ∈ t.rows, r.timestamp = none) ∧
    ((∃ r ∈ t.rows, r.timestamp ≠ none) →
      read_network_csv t = .ok (t.rows.map normalizeRow) ∧
      ∀ r ∈ t.rows, (normalizeRow r).timestamp = r.timestamp) := by
  have hemp : (missingCols (applyAliases t.cols)).isEmpty = true :=
    List.isEmpty_iff.mpr (missingCols_eq_nil_iff.mpr hschema)
  have hts : ∀ r : RawRow, (normalizeRow r).timestamp = r.timestamp := by
    intro r
    rw [normalizeRow]
    by_cases h : r.utilization_pct.isSome = true <;> simp [h]
  constructor
  · rw [read_network_csv]
    simp only [hemp, if_true]
    by_cases hall : t.rows.all (fun r => r.timestamp.isNone) = true
    · simp only [hall, if_true, true_iff]
      intro r hr
      have := List.all_eq_true.mp hall r hr
      simpa [Option.isNone_iff_eq_none] using this
    · simp only [hall, if_false]
      constructor
      · intro h; cases h
      · intro h
        exact absurd (List.all_eq_true.mpr fun r hr => by
          simp [Option.isNone_iff_eq_none, h r hr]) hall
  · rintro ⟨r, hr, hne⟩
    have hall : t.rows.all (fun r => r.timestamp.isNone) ≠ true := by
      intro h
      exact hne (by simpa [Option.isNone_iff_eq_none] using
        List.all_eq_true.mp h r hr)
    rw [read_network_csv]
    simp only [hemp, if_true, hall, if_false]
    exact ⟨rfl, fun r _ => hts r⟩

theorem C7_timestamp_check_witness :
    read_network_csv ⟨REQUIRED_COLS, [{ blankRaw with timestamp := some 0 }, blankRaw]⟩ =
      .ok ([{ blankRaw with timestamp := some 0 }, blankRaw].map normalizeRow) ∧
    ∀ r ∈ ([{ blankRaw with timestamp := some 0 }, blankRaw] : List RawRow),
      (normalizeRow r).timestamp = r.timestamp :=
  (C7_timestamp_check ⟨REQUIRED_COLS, [{ blankRaw with timestamp := some 0 }, blankRaw]⟩
      (by decide)).2
    ⟨{ blankRaw with timestamp := some 0 }, by simp, by simp⟩

/-- Claim C2, counterexample.  A row with `capacity_mbps = 0`,
`throughput_mbps = 50` and null `utilization_pct`: the claim says a zero
capacity yields a null, but the code computes `50.0 / 0.0 = +inf` (the
`errstate` context only silences the warning) and `clip(0, 100)` turns
the infinity into `100`. -/
theorem C2_counterexample :
    (normalizeRow
        { blankRaw with capacity_mbps := some 0, throughput_mbps := some 50 }).utilization_pct
      = some 100 ∧
    ({ blankRaw with capacity_mbps := some 0, throughput_mbps := some 50 } :
        RawRow).utilization_pct = none := by
  exact ⟨by decide, rfl⟩

/-- Claim C2 (amended): the loader's output rows are the input rows
normalized one by one; a row with non-null `utilization_pct` is returned
unchanged (even if implausible); a null `utilization_pct` is backfilled
with `clip(throughput/capacity*100, 0, 100)` when capacity is non-null
and non-zero, stays null when either operand is null or on `0/0`, but a
zero capacity with non-zero throughput yields the clipped infinity
(`100` for positive, `0` for negative throughput), not a null.  No case
is an error. -/
theorem C2_normalize (tb : RawTable) (out : List RawRow) (r : RawRow) :
    (read_network_csv tb = .ok out → out = tb.rows.map normalizeRow) ∧
    (r.utilization_pct.isSome → normalizeRow r = r) ∧
    (r.utilization_pct = none →
      ((r.throughput_mbps = none ∨ r.capacity_mbps = none) →
        (normalizeRow r).utilization_pct = none) ∧
      (∀ x c, r.throughput_mbps = some x → r.capacity_mbps = some c → c ≠ 0 →
        (normalizeRow r).utilization_pct = some (max 0 (min 100 (x / c * 100)))) ∧
      (∀ x, r.throughput_mbps = some x → r.capacity_mbps = some 0 →
        (normalizeRow r).utilization_pct =
          (if 0 < x then some 100 else if x < 0 then some 0 else none))) := by
  refine ⟨?_, ?_, ?_⟩
  · intro h
    rw [read_network_csv] at h
    by_cases hemp : (missingCols (applyAliases tb.cols)).isEmpty = true
    · by_cases hts : tb.rows.all (fun r => r.timestamp.isNone) = true
      · simp [hemp, hts] at h
      · rw [if_pos hemp, if_neg hts] at h
        exact (Except.ok.inj h).symm
    · simp [hemp] at h
  · intro h
    rw [normalizeRow, if_pos h]
  · intro hnull
    have hnorm : (normalizeRow r).utilization_pct =
        calcUtil r.throughput_mbps r.capacity_mbps := by
      rw [normalizeRow]
      simp [hnull]
    refine ⟨?_, ?_, ?_⟩
    · rintro (h | h)
      · rw [hnorm, h]
        rfl
      · rw [hnorm, h]
        cases r.throughput_mbps <;> rfl
    · intro x c hx hc hc0
      rw [hnorm, hx, hc]
      show fclip0100 (fscale100 (fdivF (some x) (some c))) = _
      rw [fdivF, if_neg hc0]
      rfl
    · intro x hx hc
      rw [hnorm, hx, hc]
      show fclip0100 (fscale100 (fdivF (some x) (some 0))) = _
      rw [fdivF, if_pos rfl]
      by_cases h1 : (0:ℚ) < x
      · rw [if_pos h1, if_pos h1]
        rfl
      · rw [if_neg h1]
        by_cases h2 : x < 0
        · rw [if_pos h2, if_neg h1, if_pos h2]
          rfl
        · rw [if_neg h2, if_neg h1, if_neg h2]
          rfl

theorem C2_normalize_witness :
    (normalizeRow
        { blankRaw with capacity_mbps := some 100, throughput_mbps := some 50 }).utilization_pct
      = some (max 0 (min 100 ((50:ℚ) / 100 * 100))) ∧
    max (0:ℚ) (min 100 ((50:ℚ) / 100 * 100)) = 50 :=
  ⟨((C2_normalize ⟨[], []⟩ []
      { blankRaw with capacity_mbps := some 100, throughput_mbps := some 50 }).2.2
      rfl).2.1 50 100 rfl rfl (by norm_num), by norm_num⟩

theorem lexLe_total {α β γ : Type} [DecidableEq β] {f : α → β} {g : α → γ}
    {plt : β → β → Bool} {sle : γ → γ → Bool}
    (hconn : ∀ x y, x ≠ y → plt x y = true ∨ plt y x = true)
    (hstot : ∀ x y, sle x y = true ∨ sle y x = true) :
    ∀ a b, lexLe f g plt sle a b = true ∨ lexLe f g plt sle b a = true := by
  intro a b
  by_cases h : f a = f b
  · rw [lexLe, if_pos h, lexLe, if_pos h.symm]
    exact hstot _ _
  · rw [lexLe, if_neg h, lexLe, if_neg (Ne.symm h)]
    exact hconn _ _ h

theorem lexLe_trans {α β γ : Type} [DecidableEq β] {f : α → β} {g : α → γ}
    {plt : β → β → Bool} {sle : γ → γ → Bool}
    (hptrans : ∀ x y z, plt x y = true → plt y z = true → plt x z = true)
    (hirr : ∀ x, plt x x = false)
    (hstrans : ∀ x y z, sle x y = true → sle y z = true → sle x z = true) :
    ∀ a b c, lexLe f g plt sle a b = true → lexLe f g plt sle b c = true →
      lexLe f g plt sle a c = true := by
  intro a b c hab hbc
  by_cases h1 : f a = f b <;> by_cases h2 : f b = f c
  · rw [lexLe, if_pos h1] at hab
    rw [lexLe, if_pos h2] at hbc
    rw [lexLe, if_pos (h1.trans h2)]
    exact hstrans _ _ _ hab hbc
  · rw [lexLe, if_neg h2] at hbc
    rw [lexLe, if_neg (h1 ▸ h2), h1]
    exact hbc
  · rw [lexLe, if_neg h1] at hab
    rw [lexLe, if_neg (h2 ▸ h1), ← h2]
    exact hab
  · rw [lexLe, if_neg h1] at hab
    rw [lexLe, if_neg h2] at hbc
    have hac : f a ≠ f c := by
      intro h
      have hba : plt (f b) (f a) = true := h ▸ hbc
      have hself : plt (f a) (f a) = true := hptrans _ _ _ hab hba
      rw [hirr] at hself
      exact Bool.false_ne_true hself
    rw [lexLe, if_neg hac]
    exact hptrans _ _ _ hab hbc

theorem strLt_irrefl (s : String) : strLt s s = false := by
  cases h : strLt s s
  · rfl
  · exact absurd (strLt_iff.mp h) (lt_irrefl s)

theorem strLt_conn {s t : String} (h : s ≠ t) :
    strLt s t = true ∨ strLt t s = true := by
  cases h1 : strLt s t
  · cases h2 : strLt t s
    · exact absurd (strLt_antisymm h1 h2) h
    · exact Or.inr rfl
  · exact Or.inl rfl

theorem optGT_irrefl (a : Option ℚ) : optGT a a = false := by
  rw [optGT, optLE_refl]
  rfl

theorem optGT_trans {a b c : Option ℚ} (hab : optGT a b = true)
    (hbc : optGT b c = true) : optGT a c = true := by
  rw [optGT, Bool.not_eq_true'] at *
  cases hac : optLE a c
  · rfl
  · rcases optLE_total b a with h | h
    · have : optLE b c = true := optLE_trans h hac
      rw [this] at hbc
      exact hbc
    · rw [h] at hab
      exact hab

theorem optGT_conn {a b : Option ℚ} (h : a ≠ b) :
    optGT a b = true ∨ optGT b a = true := by
  rw [optGT, optGT]
  cases h1 : optLE a b
  · exact Or.inl rfl
  · cases h2 : optLE b a
    · exact Or.inr rfl
    · exact absurd (optLE_antisymm h1 h2) h

theorem groupByOpt_length {κ : Type} [DecidableEq κ] (le : κ → κ → Bool)
    (key : Row → Option κ) (df : List Row) :
    (groupByOpt le key df).length = (df.filterMap key).dedup.length := by
  rw [groupByOpt, List.length_map, (isort_perm _ _).length_eq]

theorem mem_groupByOpt {κ : Type} [DecidableEq κ] {le : κ → κ → Bool}
    {key : Row → Option κ} {df : List Row} {k : κ} {g : List Row} :
    (k, g) ∈ groupByOpt le key df ↔
      (∃ r ∈ df, key r = some k) ∧
      g = df.filter (fun r => decide (key r = some k)) := by
  rw [groupByOpt, List.mem_map]
  constructor
  · rintro ⟨k', hk', heq⟩
    obtain ⟨h1, h2⟩ := Prod.mk.injEq .. ▸ heq
    subst h1
    exact ⟨List.mem_filterMap.mp (List.mem_dedup.mp (mem_isort.mp hk')),
      h2.symm⟩
  · rintro ⟨hex, rfl⟩
    exact ⟨k, mem_isort.mpr (List.mem_dedup.mpr (List.mem_filterMap.mpr hex)),
      rfl⟩

/-- Claim C8, counterexample.  A table whose single row has a null
`site_id`: the input has one distinct `(site_id, hour)` pair — `(null, 0)`
— but `groupby` drops rows with a null group key, so `site_hour` has zero
rows, not one. -/
theorem C8_counterexample :
    site_hour [blankRow 0] = [] ∧
    (([blankRow 0].map (fun r => (r.site_id, tsHour r.timestamp))).dedup).length = 1 := by
  decide

/-- Claim C8 (amended): `site_hour` / `site_day` have exactly one row per
distinct `(site_id, hour)` / `(site_id, date)` pair **with non-null
site_id** present in the input (`groupby` drops null-keyed rows). -/
theorem C8_row_counts (df : List Row) :
    (site_hour df).length = (df.filterMap shKey).toFinset.card ∧
    (site_day df).length = (df.filterMap sdKey).toFinset.card := by
  rw [List.card_toFinset, List.card_toFinset]
  exact ⟨by rw [site_hour, List.length_map, groupByOpt_length],
    by rw [site_day, List.length_map, groupByOpt_length]⟩

theorem congLe_total : ∀ a b, congLe a b = true ∨ congLe b a = true :=
  lexLe_total (fun _ _ h => optGT_conn h)
    (fun x y => optLE_total y x)

theorem congLe_trans : ∀ a b c, congLe a b = true → congLe b c = true →
    congLe a c = true :=
  lexLe_trans (fun _ _ _ h1 h2 => optGT_trans h1 h2) optGT_irrefl
    (fun _ _ _ h1 h2 => optLE_trans h2 h1)

theorem utilGe80_eq (r : Row) :
    utilGe80 r = (r.utilization_pct.map (fun q => decide (80 ≤ q))).getD false := by
  cases hq : r.utilization_pct <;> simp [utilGe80, hq]

/-- Claim C3: `congested_cells` consists exactly of the input rows whose
`utilization_pct` is at least the fixed constant 80 (`compute_aggregations`
takes no threshold argument), projected to the eight columns, and its rows
are sorted non-increasing lexicographically by `(utilization_pct,
latency_ms)` (a null latency sorts below every number, as pandas puts NaN
last in a descending sort). -/
theorem C3_congested (df : List Row) :
    (congested_cells df).Perm ((df.filter (fun r =>
        (r.utilization_pct.map (fun q => decide (80 ≤ q))).getD false)).map projCong) ∧
    (∀ c ∈ congested_cells df, ∃ q, c.utilization_pct = some q ∧ 80 ≤ q) ∧
    (congested_cells df).Pairwise (fun a b =>
      optLE b.utilization_pct a.utilization_pct = true ∧
      (a.utilization_pct = b.utilization_pct →
        optLE b.latency_ms a.latency_ms = true)) := by
  refine ⟨?_, ?_, ?_⟩
  · rw [congested_cells, ← List.filter_congr (fun r _ => utilGe80_eq r)]
    exact (isort_perm congLe (df.filter utilGe80)).map projCong
  · intro c hc
    rcases List.mem_map.mp hc with ⟨r, hr, rfl⟩
    have hfil := List.mem_filter.mp (mem_isort.mp hr)
    have h80 := hfil.2
    rw [utilGe80] at h80
    cases hq : r.utilization_pct with
    | none => rw [hq] at h80; cases h80
    | some q =>
      rw [hq] at h80
      exact ⟨q, hq, of_decide_eq_true h80⟩
  · rw [congested_cells]
    rw [List.pairwise_map]
    refine (isort_sorted congLe_total congLe_trans _).imp ?_
    intro a b hab
    rw [congLe, lexLe] at hab
    by_cases h : a.utilization_pct = b.utilization_pct
    · rw [if_pos h] at hab
      refine ⟨?_, fun _ => hab⟩
      show optLE b.utilization_pct a.utilization_pct = true
      rw [h]
      exact optLE_refl _
    · rw [if_neg h] at hab
      refine ⟨?_, fun heq => absurd heq h⟩
      rw [optGT, Bool.not_eq_true'] at hab
      rcases optLE_total b.utilization_pct a.utilization_pct with h2 | h2
      · exact h2
      · rw [hab] at h2; cases h2

theorem C3_congested_witness :
    ∃ q, (projCong { blankRow 0 with utilization_pct := some 90 }).utilization_pct
      = some q ∧ 80 ≤ q :=
  (C3_congested [{ blankRow 0 with utilization_pct := some 90 }]).2.1
    (projCong { blankRow 0 with utilization_pct := some 90 }) (by decide)

theorem shKey_filter_eq (df : List Row) (s : String) (h : Int) :
    df.filter (fun r => decide (shKey r = some (s, h))) =
    df.filter (fun r =>
      decide (r.site_id = some s) && decide (tsHour r.timestamp = h)) :=
  List.filter_congr fun r _ => by
    cases hq : r.site_id <;> simp [shKey, hq, Prod.ext_iff]

theorem sdKey_filter_eq (df : List Row) (s : String) (d : Int) :
    df.filter (fun r => decide (sdKey r = some (s, d))) =
    df.filter (fun r =>
      decide (r.site_id = some s) && decide (tsDate r.timestamp = d)) :=
  List.filter_congr fun r _ => by
    cases hq : r.site_id <;> simp [sdKey, hq, Prod.ext_iff]

/-- Claim C4: the aggregation engine is total (no exception for missing
data): every `site_hour` / `site_day` output row aggregates exactly the
non-null values of its group (nulls are excluded, not treated as zero),
and a group whose values are all null yields a null mean, null 95th
percentile and null max — in particular `p95_util` is null, not zero,
when a `(site_id, hour)` group has zero non-null `utilization_pct`
values. -/
theorem C4_null_safety (df : List Row) :
    (∀ row ∈ site_hour df,
      ∀ g, g = df.filter (fun r =>
          decide (r.site_id = some row.site_id) &&
          decide (tsHour r.timestamp = row.hour)) →
        (row.avg_util =
            (if g.filterMap (fun r => r.utilization_pct) = [] then none
             else some ((g.filterMap (fun r => r.utilization_pct)).sum /
               ((g.filterMap (fun r => r.utilization_pct)).length : ℚ))) ∧
         row.p95_util = percentile95 (g.filterMap (fun r => r.utilization_pct)) ∧
         row.avg_latency = meanOpt (g.filterMap (fun r => r.latency_ms)) ∧
         row.users = meanOpt (g.filterMap (fun r => r.users_active)) ∧
         ((∀ r ∈ g, r.utilization_pct = none) →
            row.avg_util = none ∧ row.p95_util = none) ∧
         ((∀ r ∈ g, r.latency_ms = none) → row.avg_latency = none) ∧
         ((∀ r ∈ g, r.users_active = none) → row.users = none))) ∧
    (∀ row ∈ site_day df,
      ∀ g, g = df.filter (fun r =>
          decide (r.site_id = some row.site_id) &&
          decide (tsDate r.timestamp = row.date)) →
        (row.avg_util = meanOpt (g.filterMap (fun r => r.utilization_pct)) ∧
         row.peak_util = maxOpt (g.filterMap (fun r => r.utilization_pct)) ∧
         row.avg_latency = meanOpt (g.filterMap (fun r => r.latency_ms)) ∧
         row.users = meanOpt (g.filterMap (fun r => r.users_active)) ∧
         ((∀ r ∈ g, r.utilization_pct = none) →
            row.avg_util = none ∧ row.peak_util = none))) := by
  constructor
  · intro row hrow g hg
    rcases List.mem_map.mp hrow with ⟨kg, hkg, rfl⟩
    rcases kg with ⟨⟨s, h⟩, g'⟩
    rcases mem_groupByOpt.mp hkg with ⟨-, rfl⟩
    have hgg : g = df.filter (fun r => decide (shKey r = some (s, h))) := by
      rw [hg, shKey_filter_eq]
    subst hgg
    dsimp only [colVals]
    refine ⟨rfl, rfl, rfl, rfl, ?_, ?_, ?_⟩
    · intro hnull
      have : (df.filter (fun r => decide (shKey r = some (s, h)))).filterMap
          (fun r => r.utilization_pct) = [] :=
        List.filterMap_eq_nil_iff.mpr hnull
      constructor
      · show meanOpt _ = none
        rw [this]
        rfl
      · show percentile95 _ = none
        rw [this]
        rfl
    · intro hnull
      show meanOpt _ = none
      rw [List.filterMap_eq_nil_iff.mpr hnull]
      rfl
    · intro hnull
      show meanOpt _ = none
      rw [List.filterMap_eq_nil_iff.mpr hnull]
      rfl
  · intro row hrow g hg
    rcases List.mem_map.mp hrow with ⟨kg, hkg, rfl⟩
    rcases kg with ⟨⟨s, d⟩, g'⟩
    rcases mem_groupByOpt.mp hkg with ⟨-, rfl⟩
    have hgg : g = df.filter (fun r => decide (sdKey r = some (s, d))) := by
      rw [hg, sdKey_filter_eq]
    subst hgg
    dsimp only [colVals]
    refine ⟨rfl, rfl, rfl, rfl, ?_⟩
    intro hnull
    have : (df.filter (fun r => decide (sdKey r = some (s, d)))).filterMap
        (fun r => r.utilization_pct) = [] :=
      List.filterMap_eq_nil_iff.mpr hnull
    constructor
    · show meanOpt _ = none
      rw [this]
      rfl
    · show maxOpt _ = none
      rw [this]
      rfl

theorem C4_null_safety_witness :
    (⟨"S0", 0, none, none, none, none⟩ : SiteHourRow).avg_util = none ∧
    (⟨"S0", 0, none, none, none, none⟩ : SiteHourRow).p95_util = none :=
  ((C4_null_safety [{ blankRow 0 with site_id := some "S0" }]).1
      ⟨"S0", 0, none, none, none, none⟩ (by decide) _ rfl).2.2.2.2.1
    (by decide)

theorem bhKeyLT_irrefl (a : BusyHourRow) : ¬ bhKeyLT a a := by
  rintro (h | ⟨-, h⟩)
  · rw [strLt_irrefl] at h
    exact Bool.false_ne_true h
  · exact lt_irrefl _ h

theorem bhKeyLT_asymm {a b : BusyHourRow} (h1 : bhKeyLT a b)
    (h2 : bhKeyLT b a) : False := by
  rcases h1 with h1 | ⟨e1, h1⟩ <;> rcases h2 with h2 | ⟨e2, h2⟩
  · have := strLt_trans h1 h2
    rw [strLt_irrefl] at this
    exact Bool.false_ne_true this
  · rw [e2] at h1
    rw [strLt_irrefl] at h1
    exact Bool.false_ne_true h1
  · rw [e1] at h2
    rw [strLt_irrefl] at h2
    exact Bool.false_ne_true h2
  · exact absurd (h1.trans h2) (lt_irrefl _)

theorem keyLe_total : ∀ a b : String × Int, keyLe a b = true ∨ keyLe b a = true :=
  lexLe_total (fun _ _ h => strLt_conn h)
    (fun x y => by
      rcases le_total x y with h | h
      · exact Or.inl (decide_eq_true h)
      · exact Or.inr (decide_eq_true h))

theorem keyLe_trans : ∀ a b c : String × Int, keyLe a b = true →
    keyLe b c = true → keyLe a c = true :=
  lexLe_trans (fun _ _ _ h1 h2 => strLt_trans h1 h2) strLt_irrefl
    (fun _ _ _ h1 h2 =>
      decide_eq_true (le_trans (of_decide_eq_true h1) (of_decide_eq_true h2)))

theorem busyLe_total : ∀ a b, busyLe a b = true ∨ busyLe b a = true :=
  lexLe_total (fun _ _ h => strLt_conn h) (fun x y => optLE_total y x)

theorem busyLe_trans : ∀ a b c, busyLe a b = true → busyLe b c = true →
    busyLe a c = true :=
  lexLe_trans (fun _ _ _ h1 h2 => strLt_trans h1 h2) strLt_irrefl
    (fun _ _ _ h1 h2 => optLE_trans h2 h1)

theorem shKey_eq_some {r : Row} {k : String × Int} :
    shKey r = some k ↔ r.site_id = some k.1 ∧ tsHour r.timestamp = k.2 := by
  cases hq : r.site_id <;> simp [shKey, hq, Prod.ext_iff]

theorem hourMeanRows_eq (df : List Row) :
    hourMeanRows df = (isort keyLe (df.filterMap shKey).dedup).map (bhBuild df) := by
  rw [hourMeanRows, groupByOpt, List.map_map]
  rfl

theorem mem_hourMeanRows {df : List Row} {b : BusyHourRow} :
    b ∈ hourMeanRows df ↔
      ∃ k, (∃ r ∈ df, shKey r = some k) ∧ b = bhBuild df k := by
  rw [hourMeanRows_eq, List.mem_map]
  constructor
  · rintro ⟨k, hk, rfl⟩
    exact ⟨k, List.mem_filterMap.mp (List.mem_dedup.mp (mem_isort.mp hk)), rfl⟩
  · rintro ⟨k, hex, rfl⟩
    exact ⟨k, mem_isort.mpr (List.mem_dedup.mpr (List.mem_filterMap.mpr hex)),
      rfl⟩

theorem hourMeanRows_pairwise (df : List Row) :
    (hourMeanRows df).Pairwise bhKeyLT := by
  rw [hourMeanRows_eq, List.pairwise_map]
  have hsorted := isort_sorted keyLe_total keyLe_trans
    (df.filterMap shKey).dedup
  have hnd : (isort keyLe (df.filterMap shKey).dedup).Nodup :=
    (isort_perm keyLe (df.filterMap shKey).dedup).nodup_iff.mpr
      (List.nodup_dedup _)
  refine (hsorted.and hnd).imp ?_
  rintro ⟨k1, h1⟩ ⟨k2, h2⟩ ⟨hle, hne⟩
  rw [keyLe, lexLe] at hle
  by_cases heq : k1 = k2
  · rw [if_pos heq] at hle
    refine Or.inr ⟨heq, ?_⟩
    have hne2 : h1 ≠ h2 := fun hh => hne (by rw [heq, hh])
    exact lt_of_le_of_ne (of_decide_eq_true hle) hne2
  · rw [if_neg heq] at hle
    exact Or.inl hle

theorem hourMeanRows_nodup (df : List Row) : (hourMeanRows df).Nodup :=
  (hourMeanRows_pairwise df).imp
    (fun h => by rintro rfl; exact bhKeyLT_irrefl _ h)

theorem bhBuild_mean (df : List Row) (s : String) (h : Int) :
    (bhBuild df (s, h)).hour_avg_util = siteHourMean df s h := by
  show meanOpt (colVals (fun r => r.utilization_pct)
    (df.filter (fun r => decide (shKey r = some (s, h))))) = _
  rw [colVals, shKey_filter_eq, siteHourMean]

theorem firstBySite_decomp {l : List BusyHourRow} {seen : List String}
    {b : BusyHourRow} (hb : b ∈ firstBySite l seen) :
    b.site_id ∉ seen ∧
    ∃ l₁ l₂, l = l₁ ++ b :: l₂ ∧ ∀ e ∈ l₁, e.site_id ≠ b.site_id := by
  induction l generalizing seen with
  | nil => cases hb
  | cons a as ih =>
    rw [firstBySite] at hb
    by_cases h : a.site_id ∈ seen
    · rw [if_pos h] at hb
      obtain ⟨hns, l₁, l₂, heq, hl₁⟩ := ih hb
      refine ⟨hns, a :: l₁, l₂, by rw [heq]; rfl, ?_⟩
      intro e he
      rcases List.mem_cons.mp he with rfl | he
      · exact fun hc => hns (hc ▸ h)
      · exact hl₁ e he
    · rw [if_neg h] at hb
      rcases List.mem_cons.mp hb with rfl | hb
      · exact ⟨h, [], as, rfl, by simp⟩
      · obtain ⟨hns, l₁, l₂, heq, hl₁⟩ := ih hb
        refine ⟨fun hc => hns (List.mem_cons_of_mem _ hc), a :: l₁, l₂,
          by rw [heq]; rfl, ?_⟩
        intro e he
        rcases List.mem_cons.mp he with rfl | he
        · exact fun hc => hns (hc ▸ List.mem_cons_self _ _)
        · exact hl₁ e he

theorem mem_sites_firstBySite {l : List BusyHourRow} {seen : List String}
    {s : String} :
    s ∈ (firstBySite l seen).map (fun b => b.site_id) ↔
      s ∈ l.map (fun b => b.site_id) ∧ s ∉ seen := by
  induction l generalizing seen with
  | nil => simp [firstBySite]
  | cons a as ih =>
    rw [firstBySite]
    by_cases h : a.site_id ∈ seen
    · rw [if_pos h, ih]
      simp only [List.map_cons, List.mem_cons]
      constructor
      · rintro ⟨h1, h2⟩
        exact ⟨Or.inr h1, h2⟩
      · rintro ⟨rfl | h1, h2⟩
        · exact absurd h h2
        · exact ⟨h1, h2⟩
    · rw [if_neg h]
      simp only [List.map_cons, List.mem_cons]
      rw [ih]
      constructor
      · rintro (rfl | ⟨h1, h2⟩)
        · exact ⟨Or.inl rfl, h⟩
        · exact ⟨Or.inr h1, fun hc => h2 (List.mem_cons_of_mem _ hc)⟩
      · rintro ⟨rfl | h1, h2⟩
        · exact Or.inl rfl
        · by_cases hs : s = a.site_id
          · exact Or.inl hs
          · refine Or.inr ⟨h1, ?_⟩
            intro hc
            rcases List.mem_cons.mp hc with hc | hc
            · exact hs hc
            · exact h2 hc

theorem nodup_sites_firstBySite (l : List BusyHourRow) (seen : List String) :
    ((firstBySite l seen).map (fun b => b.site_id)).Nodup := by
  induction l generalizing seen with
  | nil => simp [firstBySite]
  | cons a as ih =>
    rw [firstBySite]
    by_cases h : a.site_id ∈ seen
    · rw [if_pos h]
      exact ih _
    · rw [if_neg h]
      simp only [List.map_cons]
      rw [List.nodup_cons]
      refine ⟨?_, ih _⟩
      intro hc
      exact (mem_sites_firstBySite.mp hc).2 (List.mem_cons_self _ _)

theorem sublist_pair_of_mem {α : Type} {x y : α} {l : List α} (hxy : x ≠ y)
    (hx : x ∈ l) (hy : y ∈ l) : [x, y].Sublist l ∨ [y, x].Sublist l := by
  induction l with
  | nil => cases hx
  | cons a as ih =>
    by_cases hxa : x = a
    · subst hxa
      have hy' : y ∈ as := by
        rcases List.mem_cons.mp hy with h | h
        · exact absurd h.symm hxy
        · exact h
      exact Or.inl ((List.singleton_sublist.mpr hy').cons₂ x)
    · by_cases hya : y = a
      · subst hya
        have hx' : x ∈ as := by
          rcases List.mem_cons.mp hx with h | h
          · exact absurd h hxa
          · exact h
        exact Or.inr ((List.singleton_sublist.mpr hx').cons₂ y)
      · have hx' : x ∈ as := by
          rcases List.mem_cons.mp hx with h | h
          · exact absurd h hxa
          · exact h
        have hy' : y ∈ as := by
          rcases List.mem_cons.mp hy with h | h
          · exact absurd h hya
          · exact h
        rcases ih hx' hy' with h | h
        · exact Or.inl (h.cons a)
        · exact Or.inr (h.cons a)

theorem sublist_pair_asymm {α : Type} {x y : α} {l : List α} (hnd : l.Nodup)
    (hxy : x ≠ y) (h1 : [x, y].Sublist l) (h2 : [y, x].Sublist l) : False := by
  induction l with
  | nil => cases h1
  | cons a as ih =>
    rw [List.nodup_cons] at hnd
    rcases List.sublist_cons_iff.mp h1 with h1' | ⟨t1, he1, hs1⟩
    · rcases List.sublist_cons_iff.mp h2 with h2' | ⟨t2, he2, hs2⟩
      · exact ih hnd.2 h1' h2'
      · obtain ⟨rfl, rfl⟩ : y = a ∧ t2 = [x] := by
          cases he2
          exact ⟨rfl, rfl⟩
        exact hnd.1 (h1'.subset (by simp))
    · obtain ⟨rfl, rfl⟩ : x = a ∧ t1 = [y] := by
        cases he1
        exact ⟨rfl, rfl⟩
      rcases List.sublist_cons_iff.mp h2 with h2' | ⟨t2, he2, hs2⟩
      · exact hnd.1 (h2'.subset (by simp))
      · injection he2 with hh htl
        exact hxy hh.symm

theorem pair_sublist_of_append {α : Type} {l₁ l₂ : List α} {b e : α}
    (he : e ∈ l₂) : [b, e].Sublist (l₁ ++ b :: l₂) :=
  ((List.singleton_sublist.mpr he).cons₂ b).trans
    (List.sublist_append_right l₁ (b :: l₂))

/-- Claim C1 (amended): `busy_hour` contains exactly one row per distinct
non-null `site_id` of the input (rows with a null `site_id` are dropped by
`groupby`).  For each such site the row carries an hour actually present
for the site together with that `(site, hour)` group's mean utilization,
the mean is maximal over all hours present for the site under the order
placing a null mean (all-null group) below every number (pandas sorts NaN
last in the descending key), and when several hours attain the maximal
mean the row carries the lowest such hour. -/
theorem C1_busy_hour (df : List Row) :
    ((busy_hour df).map (fun b => b.site_id)).Nodup ∧
    (∀ s : String,
      (∃ r ∈ df, r.site_id = some s) ↔ ∃ b ∈ busy_hour df, b.site_id = s) ∧
    (∀ b ∈ busy_hour df,
      (∃ r ∈ df, r.site_id = some b.site_id ∧ tsHour r.timestamp = b.hour) ∧
      b.hour_avg_util = siteHourMean df b.site_id b.hour ∧
      (∀ h : Int,
        (∃ r ∈ df, r.site_id = some b.site_id ∧ tsHour r.timestamp = h) →
        optLE (siteHourMean df b.site_id h) b.hour_avg_util = true ∧
        (siteHourMean df b.site_id h = b.hour_avg_util → b.hour ≤ h))) := by
  have htmpPW := hourMeanRows_pairwise df
  have htmpND := hourMeanRows_nodup df
  have htmp2PW := isort_sorted busyLe_total busyLe_trans (hourMeanRows df)
  have htmp2ND : (isort busyLe (hourMeanRows df)).Nodup :=
    (isort_perm busyLe (hourMeanRows df)).nodup_iff.mpr htmpND
  refine ⟨nodup_sites_firstBySite _ _, ?_, ?_⟩
  · intro s
    constructor
    · rintro ⟨r, hr, hsite⟩
      have hkey : shKey r = some (s, tsHour r.timestamp) :=
        shKey_eq_some.mpr ⟨hsite, rfl⟩
      have hmem : bhBuild df (s, tsHour r.timestamp) ∈ hourMeanRows df :=
        mem_hourMeanRows.mpr ⟨_, ⟨r, hr, hkey⟩, rfl⟩
      have hsmem :
          s ∈ (isort busyLe (hourMeanRows df)).map (fun b => b.site_id) := by
        rw [List.mem_map]
        exact ⟨_, mem_isort.mpr hmem, rfl⟩
      have hs2 := mem_sites_firstBySite.mpr ⟨hsmem, List.not_mem_nil s⟩
      rw [List.mem_map] at hs2
      rcases hs2 with ⟨b, hb, hbs⟩
      exact ⟨b, hb, hbs⟩
    · rintro ⟨b, hb, rfl⟩
      obtain ⟨-, l₁, l₂, hdec, -⟩ := firstBySite_decomp hb
      have hbtmp : b ∈ hourMeanRows df := mem_isort.mp
        (by rw [hdec]; exact List.mem_append_right _ (List.mem_cons_self _ _))
      obtain ⟨k, ⟨r, hr, hk⟩, rfl⟩ := mem_hourMeanRows.mp hbtmp
      exact ⟨r, hr, (shKey_eq_some.mp hk).1⟩
  · intro b hb
    obtain ⟨-, l₁, l₂, hdec, hl₁⟩ := firstBySite_decomp hb
    have hbtmp2 : b ∈ isort busyLe (hourMeanRows df) := by
      rw [hdec]
      exact List.mem_append_right _ (List.mem_cons_self _ _)
    have hbtmp : b ∈ hourMeanRows df := mem_isort.mp hbtmp2
    obtain ⟨⟨ks, kh⟩, ⟨r0, hr0, hk0⟩, rfl⟩ := mem_hourMeanRows.mp hbtmp
    refine ⟨⟨r0, hr0, (shKey_eq_some.mp hk0).1, (shKey_eq_some.mp hk0).2⟩,
      bhBuild_mean df ks kh, ?_⟩
    intro h hex
    rcases hex with ⟨r1, hr1, hsite1, hhour1⟩
    have hk1 : shKey r1 = some (ks, h) := shKey_eq_some.mpr ⟨hsite1, hhour1⟩
    have hetmp : bhBuild df (ks, h) ∈ hourMeanRows df :=
      mem_hourMeanRows.mpr ⟨_, ⟨r1, hr1, hk1⟩, rfl⟩
    by_cases heb : bhBuild df (ks, h) = bhBuild df (ks, kh)
    · have hh : h = kh := congrArg BusyHourRow.hour heb
      constructor
      · show optLE (siteHourMean df ks h) ((bhBuild df (ks, kh)).hour_avg_util) = true
        rw [← bhBuild_mean df ks h, heb]
        exact optLE_refl _
      · intro hmeq
        show kh ≤ h
        exact hh.ge
    · have hetmp2 : bhBuild df (ks, h) ∈ isort busyLe (hourMeanRows df) :=
        mem_isort.mpr hetmp
      rw [hdec] at hetmp2
      rcases List.mem_append.mp hetmp2 with hel1 | hebl2
      · exact ((hl₁ (bhBuild df (ks, h)) hel1) rfl).elim
      · rcases List.mem_cons.mp hebl2 with heqb | hel2
        · exact absurd heqb heb
        · have hble : busyLe (bhBuild df (ks, kh)) (bhBuild df (ks, h)) = true := by
            rw [hdec] at htmp2PW
            have hp := (List.pairwise_append.mp htmp2PW).2.1
            exact (List.pairwise_cons.mp hp).1 _ hel2
          have hmax : optLE ((bhBuild df (ks, h)).hour_avg_util)
              ((bhBuild df (ks, kh)).hour_avg_util) = true := by
            rw [busyLe, lexLe,
              if_pos (show (bhBuild df (ks, kh)).site_id =
                (bhBuild df (ks, h)).site_id from rfl)] at hble
            exact hble
          constructor
          · show optLE (siteHourMean df ks h)
              ((bhBuild df (ks, kh)).hour_avg_util) = true
            rw [← bhBuild_mean df ks h]
            exact hmax
          · intro hmeq
            have hmeq' : siteHourMean df ks h =
                (bhBuild df (ks, kh)).hour_avg_util := hmeq
            have hemean : (bhBuild df (ks, h)).hour_avg_util =
                (bhBuild df (ks, kh)).hour_avg_util := by
              rw [bhBuild_mean df ks h]
              exact hmeq'
            show kh ≤ h
            by_contra hnle
            have hlt : h < kh := lt_of_not_le hnle
            have hklt : bhKeyLT (bhBuild df (ks, h)) (bhBuild df (ks, kh)) :=
              Or.inr ⟨rfl, hlt⟩
            have hpair : [bhBuild df (ks, h), bhBuild df (ks, kh)].Sublist
                (hourMeanRows df) := by
              rcases sublist_pair_of_mem heb hetmp hbtmp with hs | hs
              · exact hs
              · exfalso
                have hp := List.Pairwise.sublist hs htmpPW
                have hbe : bhKeyLT (bhBuild df (ks, kh)) (bhBuild df (ks, h)) :=
                  (List.pairwise_cons.mp hp).1 _ (List.mem_singleton.mpr rfl)
                exact bhKeyLT_asymm hklt hbe
            have hele : busyLe (bhBuild df (ks, h)) (bhBuild df (ks, kh)) = true := by
              rw [busyLe, lexLe,
                if_pos (show (bhBuild df (ks, h)).site_id =
                  (bhBuild df (ks, kh)).site_id from rfl), hemean]
              exact optLE_refl _
            have hstab := isort_stable hele hpair
            have hpair2 : [bhBuild df (ks, kh), bhBuild df (ks, h)].Sublist
                (isort busyLe (hourMeanRows df)) := by
              rw [hdec]
              exact pair_sublist_of_append hel2
            exact sublist_pair_asymm htmp2ND heb hstab hpair2

/-- Claim C1, counterexample.  A table whose single row has a null
`site_id`: one distinct `site_id` value is present in the input (the
null), but `groupby` drops rows with a null group key, so `busy_hour` has
no row at all — not exactly one row per distinct `site_id`. -/
theorem C1_counterexample :
    busy_hour [blankRow 0] = [] ∧
    (([blankRow 0].map (fun r => r.site_id)).dedup).length = 1 := by
  decide

theorem C1_busy_hour_witness :
    (∃ b ∈ busy_hour
        [{ blankRow 36000000000000 with site_id := some "S1" },
         { blankRow 39600000000000 with site_id := some "S1" }],
      b.site_id = "S1") ∧
    busy_hour
        [{ blankRow 36000000000000 with site_id := some "S1" },
         { blankRow 39600000000000 with site_id := some "S1" }] =
      [⟨"S1", 10, none⟩] :=
  ⟨((C1_busy_hour _).2.1 "S1").mp
    ⟨{ blankRow 36000000000000 with site_id := some "S1" }, by decide, rfl⟩,
   by decide⟩

end NetDash
